import Mathlib

/-!
Shallow embedding of `examples/secconquals2016_ropsynth/solve.py`:
the byte sanitization in `make_elf`, the chain stitcher
`postprocess_chain`, and the guard-condition recovery, guard
neutralization and round orchestration inside `get_gadgets`.

Modelling conventions: bytes are `Nat`, Python byte strings are
`List Nat`, Python dicts are `Nat → Option (List Nat)`, memory images
are `Nat → Nat`, and raised Python exceptions are `Except Err`.  The
external engines (angr's CFG/symbolic execution and angrop's chain
synthesis) are out of scope per the design; their per-function outputs
(basic-block count, unconstrained paths with recorded guards, actions
and a solver) and per-round outputs (synthesized chains, discovered
gadget catalog) are inputs to the embedded functions.
-/

namespace RopSynth

/-- Exceptions the Python code can raise: `KeyError` from
`guard_solutions[...]`, `AssertionError` from `assert len(payload) == 0`
(`assertLen`) and from the chain-validation `assert` (`assertChains`),
`StopIteration` from `next(...)` with no match, `TypeError` from
`frozenset.union()` applied to zero sets, `ValueError` from `min` of an
empty sequence, and `IndexError` from `pg.unconstrained[0]`. -/
inductive Err where
  | keyError (addr : Nat)
  | assertLen
  | assertChains
  | stopIteration
  | typeError
  | valueError
  | indexError
deriving DecidableEq

deriving instance DecidableEq for Except

/-- Python slice `s[:n]`: clamps at the ends, and a negative `n` counts
from the end of the string. -/
def pySliceTo (n : Int) (s : List Nat) : List Nat :=
  if 0 ≤ n then s.take n.toNat else s.take ((s.length : Int) + n).toNat

/-- Python slice `s[n:]`: clamps at the ends, and a negative `n` counts
from the end of the string. -/
def pySliceFrom (n : Int) (s : List Nat) : List Nat :=
  if 0 ≤ n then s.drop n.toNat else s.drop ((s.length : Int) + n).toNat

/-- Python `list.insert(i, x)` (clamping `i` at the list's end). -/
def pyInsert (i : Nat) (x : α) (l : List α) : List α :=
  l.take i ++ x :: l.drop i

/-- Worker for `pyReplace`, structurally recursive on the string.  The
`Nat` argument counts characters of a just-matched occurrence that
remain to be consumed without being copied (the scan resumes after each
replacement), so every recursive call steps to the tail of the list. -/
def pyReplaceGo (old new : List Nat) : Nat → List Nat → List Nat
  | _, [] => []
  | 0, x :: xs =>
    if old ≠ [] ∧ old.isPrefixOf (x :: xs) then
      new ++ pyReplaceGo old new (old.length - 1) xs
    else
      x :: pyReplaceGo old new 0 xs
  | k + 1, _ :: xs => pyReplaceGo old new k xs

/-- Python `str.replace(old, new)`: leftmost, non-overlapping, the scan
resumes after each replacement.  (All call sites pass a non-empty
`old`; an empty `old` is treated as a no-op here.) -/
def pyReplace (old new : List Nat) (s : List Nat) : List Nat :=
  pyReplaceGo old new 0 s

/-- Python `s.ljust(w, c)`: pad on the right with `c` up to width `w`,
never truncating. -/
def pyLjust (w : Nat) (c : Nat) (s : List Nat) : List Nat :=
  s ++ List.replicate (w - s.length) c

/-- The byte-sanitization loop of `make_elf` (solve.py lines 28-29):
`for i in reversed(range(2, 20)): the_bytes = the_bytes.replace('\xf4'*i, '\xcc'*i)`. -/
def sanitize_f4_runs (s : List Nat) : List Nat :=
  ((List.range' 2 18).reverse).foldl
    (fun b i => pyReplace (List.replicate i 0xf4) (List.replicate i 0xcc) b) s

/-- The byte transformation of `make_elf` on the decoded gadget bytes
(solve.py lines 28-32): the `\xf4`-run replacement loop, then
`replace('\xc3\xf4', '\xc3\xcc')`, then `ljust(4096, '\xcc')`. -/
def make_elf_bytes (decoded : List Nat) : List Nat :=
  pyLjust 4096 0xcc (pyReplace [0xc3, 0xf4] [0xc3, 0xcc] (sanitize_f4_runs decoded))

/-- No halt byte (`0xf4`) immediately follows a return byte (`0xc3`)
anywhere in the list: every adjacent pair of bytes avoids the
return-then-halt pattern that the sanitization is meant to remove. -/
def ret_halt_adj_free (l : List Nat) : Prop :=
  List.Chain' (fun a b => ¬(a = 0xc3 ∧ b = 0xf4)) l

/-- `p.loader.main_bin.memory.write_bytes(addr, bs)` (solve.py line 141):
overwrite `bs.length` bytes of the image starting at `addr`. -/
def write_bytes (mem : Nat → Nat) (addr : Nat) (bs : List Nat) : Nat → Nat :=
  fun a => if addr ≤ a ∧ a - addr < bs.length then bs.getD (a - addr) 0 else mem a

/-- One gadget as angrop reports it inside `chain._gadgets`: its address
and its `stack_change` (bytes popped from the stack, a Python int). -/
structure Gadget where
  addr : Nat
  stack_change : Int
deriving DecidableEq

/-- A raw synthesized chain: angrop's ordered gadget list
(`chain._gadgets`) and its flattened byte payload (`chain.payload_str()`). -/
structure Chain where
  gadgets : List Gadget
  payload : List Nat
deriving DecidableEq

/-- The gadget loop of `postprocess_chain` (solve.py lines 54-64): for
each gadget, copy `payload[:g.stack_change - 8]`, advance the payload,
append `guard_solutions[g.addr]` (KeyError if absent), copy the next
8 bytes (the next gadget address slot) and advance again.  Returns the
accumulated guarded suffix together with the unconsumed payload. -/
def stitch_loop (gsol : Nat → Option (List Nat)) :
    List Gadget → List Nat → Except Err (List Nat × List Nat)
  | [], payload => .ok ([], payload)
  | g :: rest, payload =>
    let filler := pySliceTo (g.stack_change - 8) payload
    let payload1 := pySliceFrom (g.stack_change - 8) payload
    match gsol g.addr with
    | none => .error (.keyError g.addr)
    | some sol =>
      match stitch_loop gsol rest (payload1.drop 8) with
      | .error e => .error e
      | .ok (tail, rem) => .ok (filler ++ sol ++ payload1.take 8 ++ tail, rem)

/-- `postprocess_chain(chain, guard_solutions)` (solve.py lines 38-67):
copy the first 8 payload bytes verbatim, run the gadget loop, then
`assert len(payload) == 0` and return the guarded chain. -/
def postprocess_chain (gsol : Nat → Option (List Nat)) (chain : Chain) :
    Except Err (List Nat) :=
  match stitch_loop gsol chain.gadgets (chain.payload.drop 8) with
  | .error e => .error e
  | .ok (tail, rem) =>
    if rem.length = 0 then .ok (chain.payload.take 8 ++ tail) else .error .assertLen

/-- Total of the gadgets' `stack_change` fields. -/
def total_stack_change (l : List Gadget) : Int :=
  (l.map (fun g => g.stack_change)).sum

/-- Total length of the guard-solution strings injected for the
gadgets of a chain. -/
def total_solution_length (gsol : Nat → Option (List Nat)) (l : List Gadget) : Nat :=
  (l.map (fun g => ((gsol g.addr).getD []).length)).sum

/-- Modelled from the spec's stitch-length invariant ("reversing the
injection (removing each inserted solution span) reproduces the
original RawChain payload"): the loop part, mirroring `stitch_loop` —
after each gadget's `stack_change - 8` filler bytes, drop that gadget's
injected solution span, keep the following 8-byte address slot, and
recurse. -/
def remove_sol_loop (gsol : Nat → Option (List Nat)) :
    List Gadget → List Nat → List Nat
  | [], s => s
  | g :: rest, s =>
    let n := (g.stack_change - 8).toNat
    let sol := (gsol g.addr).getD []
    let s1 := (s.drop n).drop sol.length
    s.take n ++ s1.take 8 ++ remove_sol_loop gsol rest (s1.drop 8)

/-- Modelled from the spec's stitch-length invariant: remove every
injected solution span (each placed after its gadget's stack-consumed
region and before the next gadget's 8-byte address slot) from a
stitched payload. -/
def remove_injected_solutions (gsol : Nat → Option (List Nat))
    (gadgets : List Gadget) (stitched : List Nat) : List Nat :=
  stitched.take 8 ++ remove_sol_loop gsol gadgets (stitched.drop 8)

/-- One symbolic leaf AST as the recovery code sees it: whether it is
symbolic, and its variable name (the stable sort key
`next(iter(v.variables))`). -/
structure Leaf where
  symbolic : Bool
  var : String
deriving DecidableEq

/-- One recorded branch condition (`guard`) of the good path: its
`symbolic` flag and its `recursive_leaf_asts` in order. -/
structure Guard where
  symbolic : Bool
  leaves : List Leaf
deriving DecidableEq

/-- One recorded action of the good path, with its kind fields
(`action.type`, `action.action`), instruction address and the
variables of `action.data`. -/
structure Action where
  type : String
  action : String
  ins_addr : Nat
  dataVars : List String
deriving DecidableEq

/-- The data of one explored path that the recovery code reads:
`good_path.guards`, `good_path.actions`, and the path's constraint
solver `state.se.any_str` applied to the concatenation of the ordered
guard variables (deterministic, as one query to one solver state). -/
structure PathData where
  guards : List Guard
  actions : List Action
  anyStr : List Leaf → List Nat

/-- The engine-provided data for one recovered function `f`: its entry
address `f.addr`, the number of its basic blocks `len(list(f.blocks))`,
and the explored path group's unconstrained states. -/
structure FuncData where
  addr : Nat
  numBlocks : Nat
  unconstrained : List PathData

/-- The per-round mutable state that the recovery loop updates: the
`guard_solutions` dict and the loaded binary image. -/
structure RoundState where
  guard_solutions : Nat → Option (List Nat)
  memory : Nat → Nat

/-- The generator building `symbolic_guard_guys` before sorting
(solve.py line 113): for each symbolic guard take its first symbolic
leaf.  In Python 2 a `StopIteration` raised by the inner `next`
silently terminates the outer generator, so a symbolic guard without a
symbolic leaf truncates the collection instead of raising. -/
def symbolic_guard_leaves : List Guard → List Leaf
  | [] => []
  | g :: rest =>
    if g.symbolic then
      match g.leaves.find? (fun l => l.symbolic) with
      | none => []
      | some l => l :: symbolic_guard_leaves rest
    else symbolic_guard_leaves rest

/-- Insertion step of the stable sort on leaves by variable name. -/
def insertLeaf (l : Leaf) : List Leaf → List Leaf
  | [] => [l]
  | x :: xs => if l.var ≤ x.var then l :: x :: xs else x :: insertLeaf l xs

/-- `sorted(..., key=lambda v: next(iter(v.variables)))` (solve.py
lines 112-115): a stable sort of the collected leaves by variable
name. -/
def sortLeaves : List Leaf → List Leaf
  | [] => []
  | x :: xs => insertLeaf x (sortLeaves xs)

/-- The filter of the `start_of_checks` generator (solve.py lines
123-129): a memory-read action whose data variables meet the union of
the guard variables. -/
def guard_read_filter (guys : List Leaf) (a : Action) : Bool :=
  a.type == "mem" && a.action == "read" &&
    a.dataVars.any (fun v => guys.any (fun l => l.var == v))

/-- `start_of_checks = min(action.ins_addr for action in good_path.actions if ...)`
(solve.py lines 123-129).  With no guard variables,
`frozenset.union(*())` raises `TypeError` as soon as the generator
reaches a memory-read action (short-circuiting skips it for other
actions), and `min` of an exhausted generator raises `ValueError`. -/
def start_of_checks (guys : List Leaf) (acts : List Action) : Except Err Nat :=
  if guys.isEmpty then
    if acts.any (fun a => a.type == "mem" && a.action == "read") then .error .typeError
    else .error .valueError
  else
    match (acts.filter (guard_read_filter guys)).map (fun a => a.ins_addr) with
    | [] => .error .valueError
    | x :: xs => .ok (xs.foldl Nat.min x)

/-- A single Python dict assignment `m[k] = v`. -/
def dict_insert (m : Nat → Option (List Nat)) (k : Nat) (v : List Nat) :
    Nat → Option (List Nat) :=
  fun a => if a = k then some v else m a

/-- `for a in range(lo, hi): guard_solutions[a] = v` (solve.py lines
134-135). -/
def record_guard_solutions (m : Nat → Option (List Nat)) (lo hi : Nat)
    (v : List Nat) : Nat → Option (List Nat) :=
  (List.range' lo (hi - lo)).foldl (fun acc a => dict_insert acc a v) m

/-- The body of the per-function loop of `get_gadgets` (solve.py lines
82-142) for one function: skip functions with at most one basic block;
take the first unconstrained state (IndexError if none); collect and
sort the symbolic guard leaves; compute `start_of_checks`; record the
solved guard bytes for every address in `[f.addr, start_of_checks)`;
and overwrite the byte at `start_of_checks` with `'\xc3'` (ret). -/
def process_function (st : RoundState) (f : FuncData) : Except Err RoundState :=
  if f.numBlocks ≤ 1 then .ok st
  else
    match f.unconstrained with
    | [] => .error .indexError
    | gp :: _ =>
      let guys := sortLeaves (symbolic_guard_leaves gp.guards)
      match start_of_checks guys gp.actions with
      | .error e => .error e
      | .ok b =>
        .ok { guard_solutions :=
                record_guard_solutions st.guard_solutions f.addr b (gp.anyStr guys),
              memory := write_bytes st.memory b [0xc3] }

/-- The whole recovery loop of `get_gadgets` over `cfg.functions.values()`. -/
def recover_all (funcs : List FuncData) (st : RoundState) : Except Err RoundState :=
  funcs.foldlM process_function st

/-- One register move reported by angrop (`g.reg_moves[i]`). -/
structure RegMove where
  from_reg : String
  to_reg : String
deriving DecidableEq

/-- One gadget of angrop's discovered catalog (`r.gadgets`). -/
structure ROPGadget where
  addr : Nat
  reg_moves : List RegMove
deriving DecidableEq

/-- The predicate of the `next(...)` search for the move gadget
(solve.py line 171): `g.reg_moves and g.reg_moves[0].from_reg == 'rax'
and g.reg_moves[0].to_reg == 'rdx'`. -/
def movMatch (g : ROPGadget) : Bool :=
  match g.reg_moves with
  | [] => false
  | m :: _ => m.from_reg == "rax" && m.to_reg == "rdx"

/-- `mov_gadget = next(g for g in r.gadgets if ...)` (solve.py line
171): the first matching gadget, `StopIteration` if none exists. -/
def find_mov_gadget (gads : List ROPGadget) : Except Err ROPGadget :=
  match gads.find? movMatch with
  | some g => .ok g
  | none => .error .stopIteration

/-- `struct.pack("<Q", n)`: eight little-endian bytes. -/
def pack_le_8 (n : Nat) : List Nat :=
  (List.range 8).map (fun i => n / 256 ^ i % 256)

/-- The sanity-check loop of `get_gadgets` (solve.py lines 162-163):
every gadget address of every synthesized chain must be a key of
`guard_solutions`. -/
def validate_chains (chains : List Chain) (gsol : Nat → Option (List Nat)) : Bool :=
  chains.all (fun c => c.gadgets.all (fun g => (gsol g.addr).isSome))

/-- The tail of `get_gadgets` after chain synthesis (solve.py lines
162-179): validate the synthesized chains, postprocess each of them,
find the `rax → rdx` move gadget, build the 2-element move chain
(packed address plus that gadget's own guard solution, KeyError if it
has none), insert it at index 2, and join everything into the final
payload. -/
def get_gadgets_payload (gsol : Nat → Option (List Nat)) (chains : List Chain)
    (rop_gadgets : List ROPGadget) : Except Err (List Nat) :=
  if validate_chains chains gsol then
    match chains.mapM (fun c => postprocess_chain gsol c) with
    | .error e => .error e
    | .ok guarded =>
      match find_mov_gadget rop_gadgets with
      | .error e => .error e
      | .ok mov =>
        match gsol mov.addr with
        | none => .error (.keyError mov.addr)
        | some sol =>
          .ok (List.flatten (pyInsert 2 (pack_le_8 mov.addr ++ sol) guarded))
  else .error .assertChains

/-- Pointwise relation realized by make_elf's byte substitutions: each
output byte is either the corresponding input byte unchanged, or a halt
byte `0xf4` replaced by the single-byte trap `0xcc`. -/
def subst_to_trap (a b : Nat) : Prop := b = a ∨ (a = 0xf4 ∧ b = 0xcc)

/-! ### Helper lemmas -/

theorem isPrefixOf_append_drop :
    ∀ (old s : List Nat), old.isPrefixOf s → old ++ s.drop old.length = s
  | [], s, _ => by simp
  | a :: old, [], h => by simp [List.isPrefixOf] at h
  | a :: old, b :: s, h => by
    simp only [List.isPrefixOf, Bool.and_eq_true, beq_iff_eq] at h
    obtain ⟨rfl, h2⟩ := h
    rw [List.length_cons, List.drop_succ_cons, List.cons_append,
      isPrefixOf_append_drop old s h2]

theorem subst_to_trap_trans {l1 l2 l3 : List Nat}
    (h12 : List.Forall₂ subst_to_trap l1 l2)
    (h23 : List.Forall₂ subst_to_trap l2 l3) :
    List.Forall₂ subst_to_trap l1 l3 := by
  induction h12 generalizing l3 with
  | nil =>
    cases h23
    exact List.Forall₂.nil
  | cons hab _ ih =>
    cases h23 with
    | cons hbc h23 =>
      refine List.Forall₂.cons ?_ (ih h23)
      simp only [subst_to_trap] at hab hbc ⊢
      omega

theorem pyReplaceGo_skip (old new : List Nat) :
    ∀ (s : List Nat) (k : Nat),
    pyReplaceGo old new k s = pyReplaceGo old new 0 (s.drop k) := by
  intro s
  induction s with
  | nil => intro k; cases k <;> rfl
  | cons x xs ih =>
    intro k
    cases k with
    | zero => rfl
    | succ k =>
      rw [List.drop_succ_cons]
      exact ih k

theorem pyReplaceGo_subst (old new : List Nat)
    (hrel : List.Forall₂ subst_to_trap old new) :
    ∀ (n : Nat) (s : List Nat), s.length ≤ n →
    List.Forall₂ subst_to_trap s (pyReplaceGo old new 0 s) := by
  intro n
  induction n with
  | zero =>
    intro s hs
    have hnil : s = [] := List.length_eq_zero.mp (Nat.le_zero.mp hs)
    subst hnil
    exact List.Forall₂.nil
  | succ n ih =>
    intro s hs
    match s with
    | [] => exact List.Forall₂.nil
    | x :: xs =>
      simp only [pyReplaceGo]
      split
      next h =>
        have h1 : 0 < old.length := List.length_pos.mpr h.1
        have hdrop : (x :: xs).drop old.length = xs.drop (old.length - 1) := by
          have h2 : old.length = (old.length - 1) + 1 := by omega
          nth_rewrite 1 [h2]
          rw [List.drop_succ_cons]
        have hrec : List.Forall₂ subst_to_trap
            (old ++ (x :: xs).drop old.length)
            (new ++ pyReplaceGo old new 0 ((x :: xs).drop old.length)) :=
          List.rel_append hrel (ih ((x :: xs).drop old.length)
            (by
              simp only [List.length_drop, List.length_cons]
              simp only [List.length_cons] at hs
              omega))
        rw [isPrefixOf_append_drop old (x :: xs) h.2] at hrec
        rw [pyReplaceGo_skip old new xs (old.length - 1), ← hdrop]
        exact hrec
      next =>
        exact List.Forall₂.cons (Or.inl rfl)
          (ih xs (by simp only [List.length_cons] at hs; omega))

theorem pyReplace_subst (old new : List Nat)
    (hrel : List.Forall₂ subst_to_trap old new) (s : List Nat) :
    List.Forall₂ subst_to_trap s (pyReplace old new s) :=
  pyReplaceGo_subst old new hrel s.length s (Nat.le_refl _)

theorem replicate_f4_cc_subst : ∀ i : Nat,
    List.Forall₂ subst_to_trap (List.replicate i 0xf4) (List.replicate i 0xcc)
  | 0 => List.Forall₂.nil
  | i + 1 => by
    rw [List.replicate_succ, List.replicate_succ]
    exact List.Forall₂.cons (Or.inr ⟨rfl, rfl⟩) (replicate_f4_cc_subst i)

theorem sanitize_f4_runs_subst (s : List Nat) :
    List.Forall₂ subst_to_trap s (sanitize_f4_runs s) := by
  rw [sanitize_f4_runs]
  generalize (List.range' 2 18).reverse = idxs
  induction idxs generalizing s with
  | nil => exact List.forall₂_same.mpr (fun a _ => Or.inl rfl)
  | cons i rest ih =>
    rw [List.foldl_cons]
    exact subst_to_trap_trans
      (pyReplace_subst _ _ (replicate_f4_cc_subst i) s) (ih _)

theorem pyReplaceGo_c3f4_head (y : Nat) (ys : List Nat) :
    (pyReplaceGo [0xc3, 0xf4] [0xc3, 0xcc] 0 (y :: ys)).head? = some y ∨
    (pyReplaceGo [0xc3, 0xf4] [0xc3, 0xcc] 0 (y :: ys)).head? = some 0xc3 := by
  simp only [pyReplaceGo]
  split
  · exact Or.inr rfl
  · exact Or.inl rfl

theorem pyReplaceGo_no_ret_halt :
    ∀ (n : Nat) (s : List Nat), s.length ≤ n →
    List.Chain' (fun a b => ¬(a = 0xc3 ∧ b = 0xf4))
      (pyReplaceGo [0xc3, 0xf4] [0xc3, 0xcc] 0 s) := by
  intro n
  induction n with
  | zero =>
    intro s hs
    have hnil : s = [] := List.length_eq_zero.mp (Nat.le_zero.mp hs)
    subst hnil
    exact List.chain'_nil
  | succ n ih =>
    intro s hs
    match s with
    | [] => exact List.chain'_nil
    | x :: xs =>
      simp only [pyReplaceGo]
      split
      next h =>
        obtain ⟨-, hpre⟩ := h
        cases xs with
        | nil => simp [List.isPrefixOf] at hpre
        | cons y rest =>
          show List.Chain' _
            (0xc3 :: 0xcc :: pyReplaceGo [0xc3, 0xf4] [0xc3, 0xcc] 0 rest)
          rw [List.chain'_cons', List.chain'_cons']
          refine ⟨?_, ?_, ih rest (by simp only [List.length_cons] at hs; omega)⟩
          · intro z hz
            simp only [List.head?_cons, Option.mem_def, Option.some.injEq] at hz
            omega
          · intro z _
            omega
      next h =>
        rw [List.chain'_cons']
        refine ⟨?_, ih xs (by simp only [List.length_cons] at hs; omega)⟩
        intro z hz
        cases xs with
        | nil => simp [pyReplaceGo] at hz
        | cons y ys =>
          have hpre : ¬ (List.isPrefixOf [0xc3, 0xf4] (x :: y :: ys) = true) :=
            fun hp => h ⟨by simp, hp⟩
          simp only [List.isPrefixOf, Bool.and_eq_true, beq_iff_eq, and_true] at hpre
          rcases pyReplaceGo_c3f4_head y ys with hh | hh <;>
            rw [hh] at hz <;>
            simp only [Option.mem_def, Option.some.injEq] at hz <;>
            omega

theorem chain'_replicate_cc (k : Nat) :
    List.Chain' (fun a b => ¬(a = 0xc3 ∧ b = 0xf4)) (List.replicate k 0xcc) := by
  induction k with
  | zero => exact List.chain'_nil
  | succ k ih =>
    rw [List.replicate_succ, List.chain'_cons']
    exact ⟨fun z _ => by omega, ih⟩

theorem pyReplace_ret_halt_adj_free (s : List Nat) :
    ret_halt_adj_free (pyReplace [0xc3, 0xf4] [0xc3, 0xcc] s) :=
  pyReplaceGo_no_ret_halt s.length s (Nat.le_refl _)

theorem ret_halt_adj_free_pad (l : List Nat) (k : Nat) (h : ret_halt_adj_free l) :
    ret_halt_adj_free (l ++ List.replicate k 0xcc) := by
  refine List.chain'_append.mpr ⟨h, chain'_replicate_cc k, ?_⟩
  intro x _ z hz
  cases k with
  | zero => simp at hz
  | succ k2 =>
    rw [List.replicate_succ] at hz
    simp only [List.head?_cons, Option.mem_def, Option.some.injEq] at hz
    omega

attribute [irreducible] ret_halt_adj_free

theorem total_stack_change_nil : total_stack_change [] = 0 := rfl

theorem total_stack_change_cons (g : Gadget) (l : List Gadget) :
    total_stack_change (g :: l) = g.stack_change + total_stack_change l := by
  simp [total_stack_change]

theorem total_stack_change_nonneg (l : List Gadget)
    (h : ∀ g ∈ l, 8 ≤ g.stack_change) : 0 ≤ total_stack_change l := by
  refine List.sum_nonneg ?_
  intro x hx
  obtain ⟨g, hg, rfl⟩ := List.mem_map.mp hx
  have h8 := h g hg
  omega

theorem total_solution_length_cons (gsol : Nat → Option (List Nat)) (g : Gadget)
    (l : List Gadget) :
    total_solution_length gsol (g :: l) =
      ((gsol g.addr).getD []).length + total_solution_length gsol l := by
  simp [total_solution_length]

theorem pySliceTo_nonneg (n : Int) (s : List Nat) (h : 0 ≤ n) :
    pySliceTo n s = s.take n.toNat := by
  simp [pySliceTo, h]

theorem pySliceFrom_nonneg (n : Int) (s : List Nat) (h : 0 ≤ n) :
    pySliceFrom n s = s.drop n.toNat := by
  simp [pySliceFrom, h]

/-- Shape of one stitched block: the filler bytes, the injected
solution span, the 8-byte address slot and the remainder can be
re-separated by take and drop. -/
theorem unstitch_step (A B C D : List Nat) (n : Nat) (hA : A.length = n)
    (hC : C.length = 8) :
    (A ++ B ++ C ++ D).take n = A ∧
    (((A ++ B ++ C ++ D).drop n).drop B.length).take 8 = C ∧
    (((A ++ B ++ C ++ D).drop n).drop B.length).drop 8 = D := by
  have assoc : A ++ B ++ C ++ D = A ++ (B ++ (C ++ D)) := by
    simp [List.append_assoc]
  rw [assoc, List.take_left' hA, List.drop_left' hA, List.drop_left,
    List.take_left' hC, List.drop_left' hC]
  exact ⟨rfl, rfl, rfl⟩

/-- Main stitching lemma: when every gadget has `stack_change ≥ 8` and a
recorded solution, and the payload is at least as long as the total
stack change, the loop consumes exactly `total_stack_change` bytes,
produces a guarded suffix of length `total + Σ solution lengths`, and
the guarded suffix with the injected spans removed is the consumed part
of the payload. -/
theorem stitch_loop_spec (gsol : Nat → Option (List Nat)) (gadgets : List Gadget) :
    ∀ payload : List Nat,
    (∀ g ∈ gadgets, 8 ≤ g.stack_change ∧ (gsol g.addr).isSome) →
    total_stack_change gadgets ≤ (payload.length : Int) →
    ∃ tail,
      stitch_loop gsol gadgets payload =
        .ok (tail, payload.drop (total_stack_change gadgets).toNat) ∧
      tail.length = (total_stack_change gadgets).toNat + total_solution_length gsol gadgets ∧
      remove_sol_loop gsol gadgets tail = payload.take (total_stack_change gadgets).toNat := by
  induction gadgets with
  | nil =>
    intro payload _ _
    exact ⟨[], by simp [stitch_loop, total_stack_change],
      by simp [total_stack_change, total_solution_length],
      by simp [remove_sol_loop, total_stack_change]⟩
  | cons g rest ih =>
    intro payload hall hlen
    obtain ⟨hsc, hsome⟩ := hall g (by simp)
    obtain ⟨sol, hsol⟩ := Option.isSome_iff_exists.mp hsome
    have hT : 0 ≤ total_stack_change rest :=
      total_stack_change_nonneg rest (fun g' hg' => (hall g' (by simp [hg'])).1)
    rw [total_stack_change_cons] at hlen ⊢
    set T := total_stack_change rest with hTdef
    set n : Nat := (g.stack_change - 8).toNat with hndef
    have hn : (n : Int) = g.stack_change - 8 := by omega
    have hlen8 : n + 8 ≤ payload.length := by omega
    -- the slices taken by the loop body
    have hslice1 : pySliceTo (g.stack_change - 8) payload = payload.take n := by
      rw [pySliceTo_nonneg _ _ (by omega)]
    have hslice2 : pySliceFrom (g.stack_change - 8) payload = payload.drop n := by
      rw [pySliceFrom_nonneg _ _ (by omega)]
    have hlen2 : T ≤ (((payload.drop n).drop 8).length : Int) := by
      simp only [List.length_drop]
      omega
    obtain ⟨tail', heq', hlen'', hrem'⟩ :=
      ih ((payload.drop n).drop 8) (fun g' hg' => hall g' (by simp [hg'])) hlen2
    have htoNat : (g.stack_change + T).toNat = n + 8 + T.toNat := by omega
    refine ⟨payload.take n ++ sol ++ (payload.drop n).take 8 ++ tail', ?_, ?_, ?_⟩
    · simp only [stitch_loop, hslice1, hslice2, hsol, heq']
      have e : List.drop T.toNat (List.drop 8 (List.drop n payload)) =
          List.drop ((g.stack_change + T).toNat) payload := by
        rw [List.drop_drop, List.drop_drop]
        congr 1
        omega
      rw [e]
    · have h1 : (payload.take n).length = n := by
        simp only [List.length_take]; omega
      have h2 : ((payload.drop n).take 8).length = 8 := by
        simp only [List.length_take, List.length_drop]; omega
      rw [total_solution_length_cons, hsol]
      simp only [Option.getD_some, List.length_append, h1, h2, hlen'', htoNat]
      omega
    · simp only [remove_sol_loop, hsol, Option.getD_some]
      rw [← hndef]
      have h1 : (payload.take n).length = n := by
        simp only [List.length_take]; omega
      have h2 : ((payload.drop n).take 8).length = 8 := by
        simp only [List.length_take, List.length_drop]; omega
      obtain ⟨u1, u2, u3⟩ :=
        unstitch_step (payload.take n) sol ((payload.drop n).take 8) tail' n h1 h2
      rw [u1, u2, u3, hrem', htoNat]
      have hsum : n + 8 + T.toNat = n + (8 + T.toNat) := by omega
      rw [hsum, List.take_add, List.take_add]
      simp [List.append_assoc]

theorem isPrefixOf_length_le : ∀ (l1 l2 : List Nat), l1.isPrefixOf l2 → l1.length ≤ l2.length
  | [], _, _ => by simp
  | _ :: _, [], h => by simp [List.isPrefixOf] at h
  | a :: l1, b :: l2, h => by
    simp only [List.isPrefixOf, Bool.and_eq_true] at h
    simpa using Nat.succ_le_succ (isPrefixOf_length_le l1 l2 h.2)

theorem pyReplaceGo_length (old new : List Nat) (hlen : old.length = new.length) :
    ∀ (s : List Nat) (k : Nat), (pyReplaceGo old new k s).length = s.length - k := by
  intro s
  induction s with
  | nil => intro k; simp [pyReplaceGo]
  | cons x xs ih =>
    intro k
    cases k with
    | zero =>
      simp only [pyReplaceGo]
      split
      next h =>
        have h1 : 0 < old.length := List.length_pos.mpr h.1
        have h2 : old.length ≤ (x :: xs).length :=
          isPrefixOf_length_le old (x :: xs) h.2
        simp only [List.length_cons] at h2
        simp only [List.length_append, ih (old.length - 1), List.length_cons]
        omega
      next =>
        simp only [List.length_cons, ih 0]
        omega
    | succ k =>
      simp only [pyReplaceGo, ih k, List.length_cons]
      omega

theorem pyReplace_length (old new s : List Nat) (h : old.length = new.length) :
    (pyReplace old new s).length = s.length := by
  have hgo := pyReplaceGo_length old new h s 0
  simpa [pyReplace] using hgo

theorem sanitize_f4_runs_length (s : List Nat) :
    (sanitize_f4_runs s).length = s.length := by
  rw [sanitize_f4_runs]
  generalize (List.range' 2 18).reverse = idxs
  induction idxs generalizing s with
  | nil => rfl
  | cons i rest ih =>
    simp only [List.foldl_cons]
    rw [ih, pyReplace_length]
    simp

theorem record_guard_solutions_lookup (v : List Nat) :
    ∀ (count lo a : Nat) (m : Nat → Option (List Nat)),
    (List.range' lo count).foldl (fun acc x => dict_insert acc x v) m a =
      if lo ≤ a ∧ a < lo + count then some v else m a := by
  intro count
  induction count with
  | zero =>
    intro lo a m
    simp only [List.range', List.foldl_nil]
    split
    next h => omega
    next => rfl
  | succ count ih =>
    intro lo a m
    rw [List.range'_succ, List.foldl_cons, ih]
    by_cases hla : lo + 1 ≤ a ∧ a < lo + 1 + count
    · rw [if_pos hla, if_pos (by omega)]
    · rw [if_neg hla]
      by_cases hax : a = lo
      · subst hax
        simp [dict_insert]
      · simp only [dict_insert, if_neg hax]
        split
        next h => omega
        next => rfl

theorem record_guard_solutions_eq (m : Nat → Option (List Nat)) (lo hi : Nat)
    (v : List Nat) (a : Nat) :
    record_guard_solutions m lo hi v a = if lo ≤ a ∧ a < hi then some v else m a := by
  rw [record_guard_solutions, record_guard_solutions_lookup v (hi - lo) lo a m]
  by_cases h : lo ≤ a ∧ a < hi
  · rw [if_pos (by omega), if_pos h]
  · rw [if_neg (by omega), if_neg h]

theorem foldl_min_ge (e : Nat) :
    ∀ (xs : List Nat) (x : Nat), e ≤ x → (∀ y ∈ xs, e ≤ y) →
    e ≤ xs.foldl Nat.min x := by
  intro xs
  induction xs with
  | nil => intro x hx _; exact hx
  | cons y ys ih =>
    intro x hx hall
    simp only [List.foldl_cons]
    exact ih (Nat.min x y)
      (le_min hx (hall y (by simp)))
      (fun z hz => hall z (by simp [hz]))

theorem stitch_loop_ok_isSome (gsol : Nat → Option (List Nat)) :
    ∀ (gadgets : List Gadget) (payload : List Nat) (res : List Nat × List Nat),
    stitch_loop gsol gadgets payload = .ok res →
    ∀ g ∈ gadgets, (gsol g.addr).isSome := by
  intro gadgets
  induction gadgets with
  | nil => intro _ _ _ g hg; cases hg
  | cons g0 rest ih =>
    intro payload res hok g hg
    rw [stitch_loop] at hok
    rcases hmatch : gsol g0.addr with _ | sol
    · rw [hmatch] at hok; cases hok
    · rw [hmatch] at hok
      rcases hloop : stitch_loop gsol rest
          ((pySliceFrom (g0.stack_change - 8) payload).drop 8) with e | pr
      · rw [hloop] at hok; cases hok
      · rcases List.mem_cons.mp hg with rfl | hmem
        · simp [hmatch]
        · exact ih _ pr hloop g hmem

theorem postprocess_ok_isSome (gsol : Nat → Option (List Nat)) (c : Chain)
    (out : List Nat) (hok : postprocess_chain gsol c = .ok out) :
    ∀ g ∈ c.gadgets, (gsol g.addr).isSome := by
  rw [postprocess_chain] at hok
  rcases hloop : stitch_loop gsol c.gadgets (c.payload.drop 8) with e | pr
  · rw [hloop] at hok; cases hok
  · exact stitch_loop_ok_isSome gsol c.gadgets _ pr hloop

/-! ### Claim theorems -/

/-- C1: for every raw chain whose payload length equals 8 plus the sum
of its gadgets' stack-consumption sizes, each gadget having
`stack_change ≥ 8` and an entry in the guard-solution map,
`postprocess_chain` returns a stitched payload whose length equals the
raw payload length plus the sum of the injected solution lengths, and
removing each injected solution span reproduces the original payload
byte-for-byte. -/
theorem stitch_length_invariant (gsol : Nat → Option (List Nat)) (chain : Chain)
    (hall : ∀ g ∈ chain.gadgets, 8 ≤ g.stack_change ∧ (gsol g.addr).isSome)
    (hlen : (chain.payload.length : Int) = 8 + total_stack_change chain.gadgets) :
    ∃ out, postprocess_chain gsol chain = .ok out ∧
      out.length = chain.payload.length + total_solution_length gsol chain.gadgets ∧
      remove_injected_solutions gsol chain.gadgets out = chain.payload := by
  have hT : 0 ≤ total_stack_change chain.gadgets :=
    total_stack_change_nonneg _ (fun g hg => (hall g hg).1)
  have hlen2 : total_stack_change chain.gadgets ≤ ((chain.payload.drop 8).length : Int) := by
    simp only [List.length_drop]
    omega
  obtain ⟨tail, heq, hlen', hrem⟩ :=
    stitch_loop_spec gsol chain.gadgets (chain.payload.drop 8) hall hlen2
  have hdroplen : (chain.payload.drop 8).length = (total_stack_change chain.gadgets).toNat := by
    simp only [List.length_drop]
    omega
  have hrem0 : (chain.payload.drop 8).drop (total_stack_change chain.gadgets).toNat = [] :=
    List.drop_eq_nil_of_le (le_of_eq hdroplen)
  refine ⟨chain.payload.take 8 ++ tail, ?_, ?_, ?_⟩
  · rw [postprocess_chain, heq, hrem0]
    simp
  · simp only [List.length_append, hlen', List.length_take]
    omega
  · rw [remove_injected_solutions]
    have h8 : (chain.payload.take 8).length = 8 := by
      simp only [List.length_take]
      omega
    rw [List.take_left' h8, List.drop_left' h8, hrem,
      List.take_of_length_le (le_of_eq hdroplen)]
    exact List.take_append_drop 8 chain.payload

/-- Witness for C1 at a concrete one-gadget chain: 24 payload bytes,
one gadget with `stack_change = 16` and a 2-byte solution. -/
theorem stitch_length_invariant_witness :
    ∃ out, postprocess_chain (fun a => if a = 1 then some [7, 7] else none)
        ⟨[⟨1, 16⟩], List.range 24⟩ = .ok out ∧
      out.length = (List.range 24).length +
        total_solution_length (fun a => if a = 1 then some [7, 7] else none) [⟨1, 16⟩] ∧
      remove_injected_solutions (fun a => if a = 1 then some [7, 7] else none)
        [⟨1, 16⟩] out = List.range 24 :=
  stitch_length_invariant (fun a => if a = 1 then some [7, 7] else none)
    ⟨[⟨1, 16⟩], List.range 24⟩ (by decide) (by decide)

/-- C3 counterexample: a raw chain whose payload (20 bytes) is shorter
than 8 plus its total stack change (24), with a mapped gadget of
`stack_change = 16`: the stitcher does NOT fail — the Python slices
clamp, the final remainder is empty, and a silently truncated stitched
payload is returned. -/
theorem stitch_short_payload_counterexample :
    ((List.replicate 20 0).length : Int) ≠ 8 + total_stack_change [⟨0, 16⟩] ∧
    postprocess_chain (fun a => if a = 0 then some [7, 7] else none)
      ⟨[⟨0, 16⟩], List.replicate 20 0⟩ =
      .ok (List.replicate 8 0 ++ List.replicate 8 0 ++ [7, 7] ++ List.replicate 4 0) :=
  ⟨by decide, by decide⟩

/-- C3 as amended: only a payload that is too LONG is detected — when
the payload strictly exceeds 8 plus the total stack change (gadgets
having `stack_change ≥ 8` and mapped solutions), the trailing `assert
len(payload) == 0` fails.  A too-short payload is consumed by clamping
slices and silently returns a truncated stitched payload. -/
theorem stitch_overlong_fails (gsol : Nat → Option (List Nat)) (chain : Chain)
    (hall : ∀ g ∈ chain.gadgets, 8 ≤ g.stack_change ∧ (gsol g.addr).isSome)
    (hlen : 8 + total_stack_change chain.gadgets < (chain.payload.length : Int)) :
    postprocess_chain gsol chain = .error .assertLen := by
  have hT : 0 ≤ total_stack_change chain.gadgets :=
    total_stack_change_nonneg _ (fun g hg => (hall g hg).1)
  have hlen2 : total_stack_change chain.gadgets ≤ ((chain.payload.drop 8).length : Int) := by
    simp only [List.length_drop]
    omega
  obtain ⟨tail, heq, _, _⟩ :=
    stitch_loop_spec gsol chain.gadgets (chain.payload.drop 8) hall hlen2
  rw [postprocess_chain, heq]
  have hne : ¬ (((chain.payload.drop 8).drop
      (total_stack_change chain.gadgets).toNat).length = 0) := by
    simp only [List.length_drop]
    omega
  exact if_neg hne

/-- Witness for the amended C3: 25 payload bytes against a single
gadget with `stack_change = 16` (budget 24). -/
theorem stitch_overlong_fails_witness :
    postprocess_chain (fun a => if a = 0 then some [7, 7] else none)
      ⟨[⟨0, 16⟩], List.range 25⟩ = .error .assertLen :=
  stitch_overlong_fails (fun a => if a = 0 then some [7, 7] else none)
    ⟨[⟨0, 16⟩], List.range 25⟩ (by decide) (by decide)

/-- C7: neutralizing a guard-boundary address overwrites exactly the
single byte at that address with the one-byte `ret` opcode `0xc3`,
leaves every other byte of the image unchanged, and is idempotent. -/
theorem neutralize_single_byte_idempotent (mem : Nat → Nat) (addr : Nat) :
    write_bytes mem addr [0xc3] addr = 0xc3 ∧
    (∀ a, a ≠ addr → write_bytes mem addr [0xc3] a = mem a) ∧
    write_bytes (write_bytes mem addr [0xc3]) addr [0xc3] =
      write_bytes mem addr [0xc3] := by
  refine ⟨?_, ?_, ?_⟩
  · simp [write_bytes]
  · intro a ha
    have hcond : ¬ (addr ≤ a ∧ a - addr < ([0xc3] : List Nat).length) := by
      simp only [List.length_cons, List.length_nil]
      omega
    simp only [write_bytes, if_neg hcond]
  · funext a
    by_cases h : addr ≤ a ∧ a - addr < ([0xc3] : List Nat).length
    · simp only [write_bytes, if_pos h]
    · simp only [write_bytes, if_neg h]

/-- Witness for C7 at a concrete image and address. -/
theorem neutralize_single_byte_idempotent_witness :
    write_bytes (fun _ => 0) 5 [0xc3] 5 = 0xc3 ∧
    write_bytes (fun _ => 0) 5 [0xc3] 6 = 0 ∧
    write_bytes (write_bytes (fun _ => 0) 5 [0xc3]) 5 [0xc3] =
      write_bytes (fun _ => 0) 5 [0xc3] := by
  obtain ⟨h1, h2, h3⟩ := neutralize_single_byte_idempotent (fun _ => 0) 5
  exact ⟨h1, h2 6 (by decide), h3⟩

/-- C8 counterexample: the input consisting of a single run of 20 halt
bytes (`0xf4`, length ≤ 4096).  The replacement loop only handles run
lengths 19 down to 2, so the first 19 bytes become `0xcc` but the 20th
remains `0xf4` in the output — the run is NOT replaced by the same
number of trap bytes. -/
theorem make_elf_run20_counterexample :
    (List.replicate 20 0xf4).length ≤ 4096 ∧
    (make_elf_bytes (List.replicate 20 0xf4)).getD 19 0 = 0xf4 ∧
    (make_elf_bytes (List.replicate 20 0xf4)).getD 18 0 = 0xcc :=
  ⟨by decide, by decide, by decide⟩

/-- C8 as amended: for every decoded input of length at most 4096 the
sanitization is a length-preserving substitution in which every output
byte is either the corresponding input byte unchanged or a halt byte
(`0xf4`) replaced by the single-byte trap (`0xcc`); no halt byte
immediately following a return byte (`0xc3`) remains anywhere in the
result; and the result is padded with trap bytes to exactly one page
(4096 bytes).  (Per the counterexample, a halt-byte run of length ≥ 20
congruent to 1 mod 19 keeps its final halt byte, so not every run of
two or more halt bytes is fully replaced.) -/
theorem make_elf_substitution_invariant (decoded : List Nat)
    (h : decoded.length ≤ 4096) :
    (pyReplace [0xc3, 0xf4] [0xc3, 0xcc] (sanitize_f4_runs decoded)).length =
      decoded.length ∧
    List.Forall₂ subst_to_trap decoded
      (pyReplace [0xc3, 0xf4] [0xc3, 0xcc] (sanitize_f4_runs decoded)) ∧
    ret_halt_adj_free (make_elf_bytes decoded) ∧
    (make_elf_bytes decoded).length = 4096 := by
  have h1 : (sanitize_f4_runs decoded).length = decoded.length :=
    sanitize_f4_runs_length decoded
  have h2 : (pyReplace [0xc3, 0xf4] [0xc3, 0xcc] (sanitize_f4_runs decoded)).length =
      decoded.length := by
    rw [pyReplace_length [0xc3, 0xf4] [0xc3, 0xcc] _ (by rfl), h1]
  have hrel : List.Forall₂ subst_to_trap [0xc3, 0xf4] [0xc3, 0xcc] :=
    List.Forall₂.cons (Or.inl rfl)
      (List.Forall₂.cons (Or.inr ⟨rfl, rfl⟩) List.Forall₂.nil)
  refine ⟨h2, ?_, ?_, ?_⟩
  · exact subst_to_trap_trans (sanitize_f4_runs_subst decoded)
      (pyReplace_subst [0xc3, 0xf4] [0xc3, 0xcc] hrel (sanitize_f4_runs decoded))
  · rw [make_elf_bytes, pyLjust]
    exact ret_halt_adj_free_pad _ _ (pyReplace_ret_halt_adj_free _)
  · rw [make_elf_bytes, pyLjust]
    simp only [List.length_append, List.length_replicate, h2]
    omega

/-- Witness for the amended C8 at a concrete input containing both a
halt-byte run and a return byte. -/
theorem make_elf_substitution_invariant_witness :
    (pyReplace [0xc3, 0xf4] [0xc3, 0xcc] (sanitize_f4_runs [0xc3, 0xf4, 0xf4])).length =
      ([0xc3, 0xf4, 0xf4] : List Nat).length ∧
    List.Forall₂ subst_to_trap [0xc3, 0xf4, 0xf4]
      (pyReplace [0xc3, 0xf4] [0xc3, 0xcc] (sanitize_f4_runs [0xc3, 0xf4, 0xf4])) ∧
    ret_halt_adj_free (make_elf_bytes [0xc3, 0xf4, 0xf4]) ∧
    (make_elf_bytes [0xc3, 0xf4, 0xf4]).length = 4096 :=
  make_elf_substitution_invariant [0xc3, 0xf4, 0xf4] (by decide)

theorem symbolic_guard_leaves_nil (gs : List Guard)
    (h : ∀ g ∈ gs, g.symbolic = false) : symbolic_guard_leaves gs = [] := by
  induction gs with
  | nil => rfl
  | cons g rest ih =>
    rw [symbolic_guard_leaves]
    rw [if_neg (by simp [h g (by simp)])]
    exact ih (fun g' hg' => h g' (by simp [hg']))

/-- C2: for a function processed by the recovery loop whose selected
unconstrained path has at least one symbolic guard and whose
`start_of_checks` computation succeeds, provided the path's memory-read
actions lie at or after the function entry (they are recorded while
executing the function from its entry), the boundary is ≥ the entry
address, and every address in `[entry, boundary)` is mapped to the
same solved byte string. -/
theorem guard_boundary_monotone (st : RoundState) (f : FuncData) (gp : PathData)
    (rest : List PathData) (b : Nat)
    (hblocks : 1 < f.numBlocks)
    (hu : f.unconstrained = gp :: rest)
    (hsym : gp.guards.any (fun g => g.symbolic) = true)
    (hmem : ∀ a ∈ gp.actions, a.type = "mem" → a.action = "read" → f.addr ≤ a.ins_addr)
    (hb : start_of_checks (sortLeaves (symbolic_guard_leaves gp.guards)) gp.actions = .ok b) :
    f.addr ≤ b ∧
    process_function st f = .ok
      ⟨record_guard_solutions st.guard_solutions f.addr b
         (gp.anyStr (sortLeaves (symbolic_guard_leaves gp.guards))),
       write_bytes st.memory b [0xc3]⟩ ∧
    (∀ a, f.addr ≤ a → a < b →
      record_guard_solutions st.guard_solutions f.addr b
        (gp.anyStr (sortLeaves (symbolic_guard_leaves gp.guards))) a =
      some (gp.anyStr (sortLeaves (symbolic_guard_leaves gp.guards)))) := by
  have hmemL : ∀ y ∈ (gp.actions.filter
      (guard_read_filter (sortLeaves (symbolic_guard_leaves gp.guards)))).map
      (fun a => a.ins_addr), f.addr ≤ y := by
    intro y hy
    obtain ⟨act, hact, rfl⟩ := List.mem_map.mp hy
    obtain ⟨hin, hflt⟩ := List.mem_filter.mp hact
    rw [guard_read_filter] at hflt
    simp only [Bool.and_eq_true, beq_iff_eq] at hflt
    exact hmem act hin hflt.1.1 hflt.1.2
  have hge : f.addr ≤ b := by
    rw [start_of_checks] at hb
    by_cases hempty : (sortLeaves (symbolic_guard_leaves gp.guards)).isEmpty
    · rw [if_pos hempty] at hb
      split at hb <;> cases hb
    · rw [if_neg hempty] at hb
      rcases hL : (gp.actions.filter
          (guard_read_filter (sortLeaves (symbolic_guard_leaves gp.guards)))).map
          (fun a => a.ins_addr) with _ | ⟨x, xs⟩
      · rw [hL] at hb
        cases hb
      · rw [hL] at hb
        injection hb with hb2
        rw [← hb2]
        exact foldl_min_ge f.addr xs x
          (hmemL x (by rw [hL]; exact List.mem_cons_self x xs))
          (fun y hy => hmemL y (by rw [hL]; exact List.mem_cons_of_mem x hy))
  refine ⟨hge, ?_, ?_⟩
  · rw [process_function, if_neg (by omega)]
    simp only [hu, hb]
  · intro a h1 h2
    rw [record_guard_solutions_eq, if_pos ⟨h1, h2⟩]

/-- Witness for C2 at a concrete one-guard function: entry 100, one
symbolic guard over variable `w0`, one memory-read action at 105
touching `w0`, solver answer `[1, 2, 3]`. -/
theorem guard_boundary_monotone_witness :
    (100 : Nat) ≤ 105 ∧
    process_function ⟨fun _ => none, fun _ => 0⟩
      ⟨100, 2, [⟨[⟨true, [⟨true, "w0"⟩]⟩], [⟨"mem", "read", 105, ["w0"]⟩],
        fun _ => [1, 2, 3]⟩]⟩ = .ok
      ⟨record_guard_solutions (fun _ => none) 100 105 [1, 2, 3],
       write_bytes (fun _ => 0) 105 [0xc3]⟩ ∧
    (∀ a, 100 ≤ a → a < 105 →
      record_guard_solutions (fun _ => none) 100 105 [1, 2, 3] a = some [1, 2, 3]) :=
  guard_boundary_monotone ⟨fun _ => none, fun _ => 0⟩
    ⟨100, 2, [⟨[⟨true, [⟨true, "w0"⟩]⟩], [⟨"mem", "read", 105, ["w0"]⟩],
      fun _ => [1, 2, 3]⟩]⟩
    ⟨[⟨true, [⟨true, "w0"⟩]⟩], [⟨"mem", "read", 105, ["w0"]⟩], fun _ => [1, 2, 3]⟩
    [] 105 (by decide) rfl (by decide) (by decide) (by decide)

/-- C4 counterexample: a function with 2 basic blocks whose selected
unconstrained path records zero symbolic guards and one memory-read
action.  Recovery FAILS — `frozenset.union(*())` raises `TypeError`
(and with no memory-read action, `min` of an empty generator raises
`ValueError`) — instead of recording an empty solution. -/
theorem zero_guard_counterexample :
    ([(⟨false, []⟩ : Guard)].all (fun g => !g.symbolic) = true) ∧
    process_function ⟨fun _ => none, fun _ => 0⟩
      ⟨0x400000, 2, [⟨[⟨false, []⟩], [⟨"mem", "read", 0x400005, ["w0"]⟩],
        fun _ => []⟩]⟩ = .error .typeError :=
  ⟨by decide, rfl⟩

/-- C4 as amended: for every function with more than one basic block
whose selected unconstrained path records zero symbolic branch guards,
guard-condition recovery FAILS, raising `TypeError` when the path has
any memory-read action and `ValueError` otherwise; the zero-guard case
is not handled with an empty solution. -/
theorem zero_guard_fails (st : RoundState) (f : FuncData) (gp : PathData)
    (rest : List PathData)
    (hblocks : 1 < f.numBlocks)
    (hu : f.unconstrained = gp :: rest)
    (hnosym : ∀ g ∈ gp.guards, g.symbolic = false) :
    process_function st f = .error
      (if gp.actions.any (fun a => a.type == "mem" && a.action == "read")
       then .typeError else .valueError) := by
  have hnil : symbolic_guard_leaves gp.guards = [] := symbolic_guard_leaves_nil _ hnosym
  rw [process_function, if_neg (by omega)]
  simp only [hu, hnil, sortLeaves, start_of_checks, List.isEmpty_nil, if_pos]
  by_cases hany : gp.actions.any (fun a => a.type == "mem" && a.action == "read") = true
  · simp [hany]
  · simp only [Bool.not_eq_true] at hany
    simp [hany]

/-- Witness for the amended C4 (the `TypeError` branch). -/
theorem zero_guard_fails_witness :
    process_function ⟨fun _ => none, fun _ => 0⟩
      ⟨0x400000, 2, [⟨[⟨false, []⟩], [⟨"mem", "read", 0x400005, ["w0"]⟩],
        fun _ => []⟩]⟩ = .error
      (if [(⟨"mem", "read", 0x400005, ["w0"]⟩ : Action)].any
          (fun a => a.type == "mem" && a.action == "read")
       then Err.typeError else Err.valueError) :=
  zero_guard_fails ⟨fun _ => none, fun _ => 0⟩
    ⟨0x400000, 2, [⟨[⟨false, []⟩], [⟨"mem", "read", 0x400005, ["w0"]⟩], fun _ => []⟩]⟩
    ⟨[⟨false, []⟩], [⟨"mem", "read", 0x400005, ["w0"]⟩], fun _ => []⟩
    [] (by decide) rfl (by decide)

/-- C5: if any gadget address of any synthesized chain has no entry in
the guard-solution map, the round fails with the validation
`AssertionError` before any stitching, producing no stitched output. -/
theorem unrecognized_gadget_aborts (gsol : Nat → Option (List Nat))
    (chains : List Chain) (rop : List ROPGadget) (c : Chain) (g : Gadget)
    (hc : c ∈ chains) (hg : g ∈ c.gadgets) (hnone : gsol g.addr = none) :
    get_gadgets_payload gsol chains rop = .error .assertChains := by
  have hv : validate_chains chains gsol = false := by
    rw [validate_chains]
    apply Bool.eq_false_iff.mpr
    intro htrue
    have h1 := (List.all_eq_true.mp htrue) c hc
    have h2 := (List.all_eq_true.mp h1) g hg
    rw [hnone] at h2
    simp at h2
  rw [get_gadgets_payload, if_neg (by simp [hv])]

/-- Witness for C5: one chain using gadget address 3, which has no
recorded solution. -/
theorem unrecognized_gadget_aborts_witness :
    get_gadgets_payload (fun _ => none) [⟨[⟨3, 16⟩], List.replicate 24 0⟩] [] =
      .error .assertChains :=
  unrecognized_gadget_aborts (fun _ => none) [⟨[⟨3, 16⟩], List.replicate 24 0⟩] []
    ⟨[⟨3, 16⟩], List.replicate 24 0⟩ ⟨3, 16⟩ (by simp) (by simp) rfl

/-- C6: when the three synthesized chains stitch successfully and the
discovered `rax → rdx` move gadget has a recorded solution, the final
payload is exactly the concatenation of the stitched open chain, the
stitched read chain, the 2-element move chain (8-byte little-endian
gadget address followed by that gadget's own guard-solution bytes), and
the stitched write chain, in that order. -/
theorem final_payload_order (gsol : Nat → Option (List Nat)) (co cr cw : Chain)
    (rop : List ROPGadget) (mov : ROPGadget) (sol go gr gw : List Nat)
    (ho : postprocess_chain gsol co = .ok go)
    (hr : postprocess_chain gsol cr = .ok gr)
    (hw : postprocess_chain gsol cw = .ok gw)
    (hmov : find_mov_gadget rop = .ok mov)
    (hsol : gsol mov.addr = some sol) :
    get_gadgets_payload gsol [co, cr, cw] rop =
      .ok (go ++ gr ++ (pack_le_8 mov.addr ++ sol) ++ gw) := by
  have hv : validate_chains [co, cr, cw] gsol = true := by
    rw [validate_chains]
    simp only [List.all_cons, List.all_nil, Bool.and_true, Bool.and_eq_true]
    exact ⟨List.all_eq_true.mpr (postprocess_ok_isSome gsol co go ho),
      List.all_eq_true.mpr (postprocess_ok_isSome gsol cr gr hr),
      List.all_eq_true.mpr (postprocess_ok_isSome gsol cw gw hw)⟩
  have hmapM : [co, cr, cw].mapM (fun c => postprocess_chain gsol c) =
      .ok [go, gr, gw] := by
    simp only [List.mapM_cons, List.mapM_nil, ho, hr, hw]
    rfl
  rw [get_gadgets_payload, if_pos hv]
  simp only [hmapM, hmov, hsol]
  simp [pyInsert]

/-- Witness for C6 with three gadget-free 8-byte chains and a move
gadget at address 2 whose solution is `[9]`. -/
theorem final_payload_order_witness :
    get_gadgets_payload (fun a => if a = 2 then some [9] else none)
      [⟨[], List.replicate 8 1⟩, ⟨[], List.replicate 8 2⟩, ⟨[], List.replicate 8 3⟩]
      [⟨2, [⟨"rax", "rdx"⟩]⟩] =
      .ok (List.replicate 8 1 ++ List.replicate 8 2 ++
        (pack_le_8 2 ++ [9]) ++ List.replicate 8 3) :=
  final_payload_order (fun a => if a = 2 then some [9] else none)
    ⟨[], List.replicate 8 1⟩ ⟨[], List.replicate 8 2⟩ ⟨[], List.replicate 8 3⟩
    [⟨2, [⟨"rax", "rdx"⟩]⟩] ⟨2, [⟨"rax", "rdx"⟩]⟩ [9]
    (List.replicate 8 1) (List.replicate 8 2) (List.replicate 8 3)
    (by decide) (by decide) (by decide) (by decide) (by decide)

/-- C9: a recovered function with at most one basic block is skipped by
the recovery loop without failing: the state (solutions and image) is
unchanged, and processing the remaining functions is as if the
malformed one were absent. -/
theorem malformed_function_skipped (st st0 : RoundState) (f : FuncData)
    (xs ys : List FuncData) (h : f.numBlocks ≤ 1) :
    process_function st f = .ok st ∧
    recover_all (xs ++ f :: ys) st0 = recover_all (xs ++ ys) st0 := by
  have hskip : ∀ s : RoundState, process_function s f = .ok s := by
    intro s
    rw [process_function, if_pos h]
  refine ⟨hskip st, ?_⟩
  rw [recover_all, recover_all]
  induction xs generalizing st0 with
  | nil =>
    simp only [List.nil_append]
    rw [List.foldlM_cons, hskip st0]
    rfl
  | cons x xs ih =>
    simp only [List.cons_append]
    rw [List.foldlM_cons, List.foldlM_cons]
    cases hpx : process_function st0 x with
    | error e => rfl
    | ok s => exact ih s

/-- Witness for C9 at a concrete malformed function (one basic block). -/
theorem malformed_function_skipped_witness :
    process_function ⟨fun _ => none, fun _ => 0⟩ ⟨0x400000, 1, []⟩ =
      .ok ⟨fun _ => none, fun _ => 0⟩ ∧
    recover_all [⟨0x400000, 1, []⟩] ⟨fun _ => none, fun _ => 0⟩ =
      recover_all [] ⟨fun _ => none, fun _ => 0⟩ :=
  malformed_function_skipped ⟨fun _ => none, fun _ => 0⟩ ⟨fun _ => none, fun _ => 0⟩
    ⟨0x400000, 1, []⟩ [] [] (by decide)

/-- C10: the no-orphan validation covers only the synthesized chains,
not the move gadget.  With validation passed and stitching successful:
(a) a discovered `rax → rdx` move gadget with no guard-solution entry
fails as a `KeyError` while building the move chain; (b) when no
discovered gadget moves rax to rdx, the `next(...)` selection itself
fails with `StopIteration`. -/
theorem move_gadget_bypasses_validation (gsol : Nat → Option (List Nat))
    (chains : List Chain) (rop : List ROPGadget) (L : List (List Nat))
    (mov : ROPGadget)
    (hv : validate_chains chains gsol = true)
    (hm : chains.mapM (fun c => postprocess_chain gsol c) = .ok L) :
    (find_mov_gadget rop = .ok mov → gsol mov.addr = none →
      get_gadgets_payload gsol chains rop = .error (.keyError mov.addr)) ∧
    ((∀ g ∈ rop, movMatch g = false) →
      get_gadgets_payload gsol chains rop = .error .stopIteration) := by
  constructor
  · intro hfind hnone
    rw [get_gadgets_payload, if_pos hv]
    simp only [hm, hfind, hnone]
  · intro hnomatch
    have hfind : find_mov_gadget rop = .error .stopIteration := by
      rw [find_mov_gadget,
        List.find?_eq_none.mpr (fun x hx => by simp [hnomatch x hx])]
    rw [get_gadgets_payload, if_pos hv]
    simp only [hm, hfind]

/-- Witness for C10: part (a) with an unmapped move gadget at address 5
after vacuous validation, part (b) with an empty gadget catalog. -/
theorem move_gadget_bypasses_validation_witness :
    get_gadgets_payload (fun _ => none) [] [⟨5, [⟨"rax", "rdx"⟩]⟩] =
      .error (.keyError 5) ∧
    get_gadgets_payload (fun _ => none) [] [] = .error .stopIteration :=
  ⟨(move_gadget_bypasses_validation (fun _ => none) [] [⟨5, [⟨"rax", "rdx"⟩]⟩] []
      ⟨5, [⟨"rax", "rdx"⟩]⟩ rfl rfl).1 rfl rfl,
   (move_gadget_bypasses_validation (fun _ => none) [] [] [] ⟨0, []⟩ rfl rfl).2
     (by simp)⟩

end RopSynth
